import Mathlib

/-!
Shallow embedding of `src/pyama_squares.py` (pyama_squares).

Modelling conventions:
* Python/numpy floating-point quantities (`area`, centroids, `np.sqrt`,
  `np.rint`) are modelled as exact real numbers; `np.rint` is modelled by
  `rint`, round-half-to-even, numpy's rounding mode.
* Python `//` on these values (floor division, positive divisor 2) coincides
  with Lean's `Int` division (`Int.ediv`) for divisor 2, which we use.
* numpy arrays are modelled as total functions from indices to values,
  together with their shape; numpy basic slice assignment
  `stack[frame, ..., y1:y2, x1:x2] = val` writes exactly the in-range
  half-open rectangle (slices are already clamped by `insert_bb` before any
  write).  Negative-index wrap-around on the frame axis is not modelled;
  frame keys coming from the pipeline are non-negative frame indices.
* Python dict iteration order is insertion order; collections and tracks are
  modelled as association lists in that order.
* `print(..., file=sys.stderr)` diagnostics are modelled as an explicit list
  of `Diag` records returned by `insert_bb`.
* Fallible Python code (KeyError / IndexError / TypeError) returns `Option`.
-/

namespace PyamaSquares

/-- `np.rint`: round to nearest integer, ties to even.
If the fractional part is exactly 1/2 then `x = ⌊x⌋ + 1/2`, and
`2 * round (x / 2)` picks the even one of `⌊x⌋`, `⌊x⌋ + 1`;
otherwise there is no tie and ordinary rounding is exact. -/
noncomputable def rint (x : ℝ) : ℤ :=
  if Int.fract x = 1 / 2 then 2 * round (x / 2) else round x

/-- A bounding-box record, as in the pickled ROI dicts: integer pixel
extents, floating centroid and area (floats modelled as reals). -/
structure BBox where
  x_min : ℤ
  x_max : ℤ
  y_min : ℤ
  y_max : ℤ
  x_mean : ℝ
  y_mean : ℝ
  area : ℝ

/-- The `frame` key of a track entry / the `frame` argument of `insert_bb`:
a concrete frame index, Python `None`, or Python `Ellipsis`. -/
inductive Frame where
  | fidx : ℤ → Frame
  | fnone : Frame
  | fell : Frame
deriving DecidableEq

/-- Lines 100-101 of the source: `None` and `...` both become `slice(None)`
(all frames); the result is `Option.none` for "all frames" and `some n` for a
single frame. -/
def frameSelOf : Frame → Option ℤ
  | Frame.fidx n => some n
  | Frame.fnone => Option.none
  | Frame.fell => Option.none

/-- A 3-D output stack: shape `(n_frames, height, width)` plus the pixel
data as a total function (frame, y, x) ↦ value. -/
structure OutputStack where
  n_frames : ℕ
  height : ℕ
  width : ℕ
  data : ℤ → ℤ → ℤ → ℕ

/-- One border diagnostic printed to stderr by `insert_bb` (line 126):
the tag ("INCLUDE"/"EXCLUDE"), the computed extents, the printed frame name
(`Option.none` stands for `':'`, `some (fr+1)` for a single frame), and the
requested dimensions. -/
structure Diag where
  tag : String
  x1 : ℤ
  x2 : ℤ
  y1 : ℤ
  y2 : ℤ
  frame_name : Option ℤ
  w : ℤ
  h : ℤ
deriving DecidableEq

/-- Computed extents `(x1, x2, y1, y2)` of a candidate square. -/
structure Ext where
  x1 : ℤ
  x2 : ℤ
  y1 : ℤ
  y2 : ℤ
deriving DecidableEq

/-- Lines 96-97: `bb_width` defaults to `bb.x_max - bb.x_min + 1`. -/
def resolvedW (bb : BBox) (o : Option ℤ) : ℤ :=
  o.getD (bb.x_max - bb.x_min + 1)

/-- Lines 98-99: `bb_height` defaults to `bb.y_max - bb.y_min + 1`. -/
def resolvedH (bb : BBox) (o : Option ℤ) : ℤ :=
  o.getD (bb.y_max - bb.y_min + 1)

/-- Lines 103-112: candidate extents of the placed square.
`weighted = true`: centered at the rounded centroid;
`weighted = false`: centered in the original box's extents
(Python `//` is floor division; divisor 2 is positive, so Lean `Int`
division agrees). -/
noncomputable def bbExtents (bb : BBox) (bb_width bb_height : ℤ)
    (weighted : Bool) : Ext :=
  if weighted then
    let x1 := rint bb.x_mean - bb_width / 2
    let y1 := rint bb.y_mean - bb_height / 2
    ⟨x1, x1 + bb_width, y1, y1 + bb_height⟩
  else
    let w := bb.x_max - bb.x_min + 1
    let h := bb.y_max - bb.y_min + 1
    let x1 := bb.x_min - (bb_width - w) / 2
    let y1 := bb.y_min - (bb_height - h) / 2
    ⟨x1, x1 + bb_width, y1, y1 + bb_height⟩

/-- Line 115: the border check `x1 < 0 or x2 > width or y1 < 0 or y2 > height`. -/
def hitsBorder (e : Ext) (width height : ℤ) : Prop :=
  e.x1 < 0 ∨ e.x2 > width ∨ e.y1 < 0 ∨ e.y2 > height

instance (e : Ext) (width height : ℤ) : Decidable (hitsBorder e width height) := by
  unfold hitsBorder; infer_instance

/-- Lines 129-136: clamp the extents to the image bounds. -/
def clampExt (e : Ext) (width height : ℤ) : Ext :=
  ⟨if e.x1 < 0 then 0 else e.x1,
   if e.x2 > width then width else e.x2,
   if e.y1 < 0 then 0 else e.y1,
   if e.y2 > height then height else e.y2⟩

/-- Frame selection of the numpy write `stack[frame, ...]`:
`Option.none` is `slice(None)` (every frame), `some fr` a single frame. -/
def frameMatch (fs : Option ℤ) (f : ℤ) : Prop :=
  fs = Option.none ∨ fs = some f

instance (fs : Option ℤ) (f : ℤ) : Decidable (frameMatch fs f) := by
  unfold frameMatch; infer_instance

/-- Membership of a pixel `(y, x)` in the half-open rectangle of an `Ext`. -/
def inExt (e : Ext) (y x : ℤ) : Prop :=
  e.y1 ≤ y ∧ y < e.y2 ∧ e.x1 ≤ x ∧ x < e.x2

instance (e : Ext) (y x : ℤ) : Decidable (inExt e y x) := by
  unfold inExt; infer_instance

/-- Line 140: `stack[frame, ..., y1:y2, x1:x2] = val` on the selected
frame(s), over the half-open rectangle `[x1,x2) × [y1,y2)`. -/
def writeRect (d : ℤ → ℤ → ℤ → ℕ) (fs : Option ℤ) (e : Ext) (v : ℕ) :
    ℤ → ℤ → ℤ → ℕ :=
  fun f y x =>
    if frameMatch fs f ∧ inExt e y x then v
    else d f y x

/-- Line 126: the diagnostic record printed when the box hits a border. -/
def mkDiag (ignore_borders : Bool) (e : Ext) (fs : Option ℤ)
    (bb_width bb_height : ℤ) : Diag :=
  { tag := if ignore_borders then "INCLUDE" else "EXCLUDE",
    x1 := e.x1, x2 := e.x2, y1 := e.y1, y2 := e.y2,
    frame_name := fs.map (fun fr => fr + 1),
    w := bb_width, h := bb_height }

/-- Lines 81-140, `insert_bb`: insert a bounding box into a stack.
Returns the updated stack and the list of emitted diagnostics
(empty, or the single border diagnostic of line 126). -/
noncomputable def insert_bb (stack : OutputStack) (bb : BBox)
    (bb_width0 bb_height0 : Option ℤ) (frame0 : Frame)
    (weighted ignore_borders : Bool) : OutputStack × List Diag :=
  let bb_width := resolvedW bb bb_width0
  let bb_height := resolvedH bb bb_height0
  let frame := frameSelOf frame0
  let e := bbExtents bb bb_width bb_height weighted
  if hitsBorder e (stack.width : ℤ) (stack.height : ℤ) then
    let d := mkDiag ignore_borders e frame bb_width bb_height
    if ignore_borders then
      let e2 := clampExt e (stack.width : ℤ) (stack.height : ℤ)
      ({ stack with data := writeRect stack.data frame e2 2 }, [d])
    else
      (stack, [d])
  else
    ({ stack with data := writeRect stack.data frame e 1 }, [])

/-- A track: Python dict mapping frame key to bounding box, in insertion
order. -/
abbrev Track := List (Frame × BBox)

/-- StackMeta: the record stored under the reserved key `None` of a track
collection. -/
structure StackMeta where
  n_frames : ℕ
  width : ℕ
  height : ℕ
deriving DecidableEq

/-- A track collection (one pickled input file or a synthesized one):
the entry under the reserved key `None` (the StackMeta, when present) and
the remaining entries, keyed by their ROI identifiers in insertion order. -/
structure TrackColl where
  meta : Option StackMeta
  tracks : List (ℤ × Track)

/-- Line 150: `np.zeros((n_frames, height, width), dtype=np.uint8)`. -/
def zerosStack (m : StackMeta) : OutputStack :=
  { n_frames := m.n_frames, height := m.height, width := m.width,
    data := fun _ _ _ => 0 }

/-- Lines 157-158: the drawn square side for a margin,
`np.rint(np.sqrt((1 + margin) * area)).astype(int)`. -/
noncomputable def sideLength (area margin : ℝ) : ℤ :=
  rint (Real.sqrt ((1 + margin) * area))

/-- Lines 160-163: inner frame loop of `varying_margins_centered`:
entries whose frame key `is ...` are skipped, every other entry is inserted
with the square side of this margin, `weighted=True`. -/
noncomputable def insertTrackFrames (area margin : ℝ) (ignore_borders : Bool)
    (tr : Track) (st : OutputStack) : OutputStack :=
  tr.foldl
    (fun st2 fb =>
      match fb.1 with
      | Frame.fell => st2
      | fr => (insert_bb st2 fb.2 (some (sideLength area margin))
          (some (sideLength area margin)) fr true ignore_borders).1)
    st

/-- Lines 156-163: loop of one track over all margin sts (each entry of
the sts dict is updated in place by this track's frame loop). -/
noncomputable def processTrack (area : ℝ) (ignore_borders : Bool) (tr : Track)
    (sts : List (ℝ × OutputStack)) : List (ℝ × OutputStack) :=
  sts.map (fun p => (p.1, insertTrackFrames area p.1 ignore_borders tr p.2))

/-- Lines 143-165, `varying_margins_centered`: allocate one zero stack per
margin from `bboxes[0][None]`, then composite every non-reserved track of
every truthy collection into every margin stack.
`Option.none` models the IndexError / TypeError / KeyError raised when the
first collection is absent or lacks the reserved StackMeta entry.
The stderr diagnostics of the inner `insert_bb` calls are accounted at the
`insert_bb` level and dropped here. -/
noncomputable def varying_margins_centered (area : ℝ)
    (colls : List (Option TrackColl)) (margins : List ℝ)
    (ignore_borders : Bool) : Option (List (ℝ × OutputStack)) :=
  match colls with
  | [] => Option.none
  | c0 :: _ =>
    match c0 with
    | Option.none => Option.none
    | some c =>
      match c.meta with
      | Option.none => Option.none
      | some m =>
        let init := margins.map (fun mg => (mg, zerosStack m))
        let allTracks := (colls.filterMap id).flatMap TrackColl.tracks
        some (allTracks.foldl
          (fun sts kt => processTrack area ignore_borders kt.2 sts)
          init)

/-- The single-frame bounding box synthesized for one empty-site center:
`x1 = np.rint(c[0] - w2)` is exact since `c[0]` is an int and `w2 = w // 2`
is an integral float; the stored `area` is the reassigned `w * h`. -/
noncomputable def emptyBox (c : ℤ × ℤ) (w h : ℤ) : BBox :=
  let x1 := c.1 - w / 2
  let y1 := c.2 - h / 2
  let x2 := x1 + w
  let y2 := y1 + h
  { x_min := x1, x_max := x2, y_min := y1, y_max := y2,
    x_mean := ((x1 : ℝ) + (x2 : ℝ)) / 2, y_mean := ((y1 : ℝ) + (y2 : ℝ)) / 2,
    area := (w : ℝ) * (h : ℝ) }

/-- Lines 46-78, `make_empty_bboxes`: one single-entry track per
coordinate, keyed by its position in the input sequence; the single entry's
frame key is Python `None`.  `w = np.rint(np.sqrt(area))`,
`h = np.rint(area / w)` (real division models float division; the resulting
collection has no reserved StackMeta entry). -/
noncomputable def make_empty_bboxes (coords : List (ℤ × ℤ)) (area : ℝ) :
    TrackColl :=
  let w := rint (Real.sqrt area)
  let h := rint (area / (w : ℝ))
  { meta := Option.none,
    tracks := coords.enum.map
      (fun ic => ((ic.1 : ℤ), [(Frame.fnone, emptyBox ic.2 w h)])) }

/-- The Python variable `empty` of `main`, which is rebound inside the
per-file loop: the CLI coordinate list, the default `None`, or (after the
first truthy iteration) the dict returned by `make_empty_bboxes`. -/
inductive EmptyArg where
  | coords : List (ℤ × ℤ) → EmptyArg
  | pynone : EmptyArg
  | synthesized : TrackColl → EmptyArg

/-- Python truthiness of the `empty` variable (`if empty:`): a nonempty
list or a nonempty dict. -/
def EmptyArg.truthy : EmptyArg → Bool
  | EmptyArg.coords cs => !cs.isEmpty
  | EmptyArg.pynone => false
  | EmptyArg.synthesized c => !c.tracks.isEmpty

/-- Dynamic call `make_empty_bboxes(empty, area)` on whatever the variable
`empty` currently holds.  Iterating a dict yields its keys (ints), and
`c[0]` on an int raises TypeError, modelled by `Option.none`; likewise
`enumerate(None)` raises TypeError. -/
noncomputable def make_empty_bboxes_dyn (e : EmptyArg) (area : ℝ) :
    Option TrackColl :=
  match e with
  | EmptyArg.coords cs => some (make_empty_bboxes cs area)
  | EmptyArg.pynone => Option.none
  | EmptyArg.synthesized _ => Option.none

/-- The value of `empty` as the second positional collection argument of
`varying_margins_centered`: `None` and a (necessarily empty, since truthy
lists were rebound) coordinate list are falsy and skipped; a synthesized
dict is passed through. -/
def emptyAsColl : EmptyArg → Option TrackColl
  | EmptyArg.coords _ => Option.none
  | EmptyArg.pynone => Option.none
  | EmptyArg.synthesized c => some c

/-- Lines 285-291, `main`: the per-file loop, with the input files given as
their already-deserialized track collections (`read_bboxes` is file I/O) and
`export_squares` elided (file I/O); the list of per-file stack dicts is
returned instead.  The loop-carried state is the Python variable `empty`,
which the source rebinds to the synthesized dict on the first truthy
iteration. -/
noncomputable def main : List TrackColl → ℝ → List ℝ → Bool → EmptyArg →
    Option (List (List (ℝ × OutputStack)))
  | [], _, _, _, _ => some []
  | p :: rest, area, margin, ignore_borders, empty =>
    let empty2 : Option EmptyArg :=
      if empty.truthy then
        (make_empty_bboxes_dyn empty area).map EmptyArg.synthesized
      else some empty
    match empty2 with
    | Option.none => Option.none
    | some e =>
      match varying_margins_centered area [some p, emptyAsColl e] margin
          ignore_borders with
      | Option.none => Option.none
      | some sts =>
        match main rest area margin ignore_borders e with
        | Option.none => Option.none
        | some others => some (sts :: others)

/-- The rectangle actually written by a drawing `insert_bb` call: the
computed extents, clamped when they hit the border and
`ignore_borders=true`. -/
noncomputable def targetExt (stack : OutputStack) (bb : BBox)
    (bw bh : Option ℤ) (weighted ignore_borders : Bool) : Ext :=
  let e := bbExtents bb (resolvedW bb bw) (resolvedH bb bh) weighted
  if hitsBorder e (stack.width : ℤ) (stack.height : ℤ) ∧ ignore_borders = true
  then clampExt e (stack.width : ℤ) (stack.height : ℤ)
  else e

/-- The value of pixel `(f, y, x)` of the `i`-th stack of a
`varying_margins_centered` result (`Option.none` when the call failed or
there is no `i`-th margin stack). -/
def pixelAt (r : Option (List (ℝ × OutputStack))) (i : ℕ) (f y x : ℤ) :
    Option ℕ :=
  r.bind (fun l => (l[i]?).map (fun ms => ms.2.data f y x))

/-- Sample 1-frame 5×5 zero stack, for witnesses. -/
def stack55 : OutputStack :=
  { n_frames := 1, height := 5, width := 5, data := fun _ _ _ => 0 }

/-- Sample bounding box 0..9 × 0..9 (too large for `stack55`), for
witnesses. -/
noncomputable def bbTen : BBox :=
  { x_min := 0, x_max := 9, y_min := 0, y_max := 9,
    x_mean := 0, y_mean := 0, area := 100 }

/-- Sample bounding box 1..2 × 1..2 (fits in `stack55`), for witnesses. -/
noncomputable def bbSmall : BBox :=
  { x_min := 1, x_max := 2, y_min := 1, y_max := 2,
    x_mean := 0, y_mean := 0, area := 4 }

/-- Sample collection holding only the reserved StackMeta entry
(2 frames, 30×30), for witnesses and counterexamples. -/
def metaOnly30 : TrackColl :=
  { meta := some { n_frames := 2, width := 30, height := 30 }, tracks := [] }

/-- Sample collection with no reserved StackMeta entry and no tracks. -/
def noMetaColl : TrackColl := { meta := Option.none, tracks := [] }

/-- Sample track present in 3 frames, for witnesses. -/
noncomputable def tr3 : Track :=
  [(Frame.fidx 0, bbSmall), (Frame.fidx 1, bbSmall), (Frame.fidx 2, bbSmall)]

/-! Helper lemmas about `rint` (numpy round-half-to-even). -/

theorem rint_eq_of_between (x : ℝ) (n : ℤ) (h1 : (n : ℝ) - 1 / 2 < x)
    (h2 : x < (n : ℝ) + 1 / 2) : rint x = n := by
  have hfr : Int.fract x ≠ 1 / 2 := by
    intro hf
    have h3 := Int.floor_add_fract x
    rw [hf] at h3
    have hl : (n : ℝ) - 1 < (⌊x⌋ : ℝ) := by linarith
    have hr : ((⌊x⌋ : ℝ)) < n := by linarith
    have hl' : n - 1 < ⌊x⌋ := by exact_mod_cast hl
    have hr' : ⌊x⌋ < n := by exact_mod_cast hr
    omega
  rw [rint, if_neg hfr, round_eq]
  rw [Int.floor_eq_iff]
  constructor
  · linarith
  · linarith

theorem rint_intCast (n : ℤ) : rint ((n : ℤ) : ℝ) = n := by
  apply rint_eq_of_between
  · linarith
  · linarith

theorem rint_bounds (x : ℝ) : x - 1 / 2 ≤ (rint x : ℝ) ∧ (rint x : ℝ) ≤ x + 1 / 2 := by
  rw [rint]
  split
  case isTrue hf =>
    have h3 := Int.floor_add_fract x
    rw [hf] at h3
    rcases Int.even_or_odd ⌊x⌋ with ⟨k, hk⟩ | ⟨k, hk⟩
    · have hx2 : x / 2 = (k : ℝ) + 1 / 4 := by
        rw [← h3, hk]; push_cast; ring
      have hr : round (x / 2) = k := by
        rw [hx2, round_int_add]
        norm_num [round_eq]
      rw [hr]
      constructor
      · push_cast; rw [← h3, hk]; push_cast; linarith
      · push_cast; rw [← h3, hk]; push_cast; linarith
    · have hx2 : x / 2 = (k : ℝ) + 3 / 4 := by
        rw [← h3, hk]; push_cast; ring
      have hr : round (x / 2) = k + 1 := by
        rw [hx2, round_int_add]
        have : round ((3:ℝ) / 4) = 1 := by
          rw [round_eq]
          rw [show (3:ℝ)/4 + 1/2 = 5/4 by norm_num]
          rw [Int.floor_eq_iff]
          norm_num
        rw [this]
      rw [hr]
      constructor
      · push_cast; rw [← h3, hk]; push_cast; linarith
      · push_cast; rw [← h3, hk]; push_cast; linarith
  case isFalse hf =>
    have := abs_sub_round x
    rw [abs_le] at this
    constructor <;> linarith [this.1, this.2]

theorem rint_mono {a b : ℝ} (h : a ≤ b) : rint a ≤ rint b := by
  by_contra hlt
  push_neg at hlt
  have hba : rint b + 1 ≤ rint a := hlt
  obtain ⟨ha1, ha2⟩ := rint_bounds a
  obtain ⟨hb1, hb2⟩ := rint_bounds b
  have hcast : ((rint b : ℤ) : ℝ) + 1 ≤ ((rint a : ℤ) : ℝ) := by exact_mod_cast hba
  have hab : a = b := le_antisymm h (by linarith)
  rw [hab] at hba
  omega

theorem rint_nonneg {x : ℝ} (hx : 0 ≤ x) : 0 ≤ rint x := by
  obtain ⟨h1, _⟩ := rint_bounds x
  have h2 : (-1 : ℝ) < ((rint x : ℤ) : ℝ) := by linarith
  have h3 : (-1 : ℤ) < rint x := by exact_mod_cast h2
  omega

theorem sqrt_400 : Real.sqrt 400 = 20 := by
  rw [show (400 : ℝ) = 20 ^ 2 by norm_num, Real.sqrt_sq (by norm_num : (0:ℝ) ≤ 20)]

theorem rint_twenty : rint (20 : ℝ) = 20 := by
  have := rint_intCast 20
  norm_num at this
  exact this

theorem sideLength_400_0 : sideLength 400 0 = 20 := by
  rw [sideLength, show (1 + (0:ℝ)) * 400 = 400 by norm_num, sqrt_400, rint_twenty]

/-! Case-analysis lemmas for the three branches of `insert_bb`. -/

theorem insert_bb_of_fits (stack : OutputStack) (bb : BBox)
    (bw bh : Option ℤ) (fr : Frame) (weighted ib : Bool)
    (he : ¬ hitsBorder
      (bbExtents bb (resolvedW bb bw) (resolvedH bb bh) weighted)
      (stack.width : ℤ) (stack.height : ℤ)) :
    insert_bb stack bb bw bh fr weighted ib =
      ({ stack with data := (writeRect stack.data (frameSelOf fr)
            (bbExtents bb (resolvedW bb bw) (resolvedH bb bh) weighted) 1) },
       []) := by
  simp only [insert_bb]
  rw [if_neg he]

theorem insert_bb_of_exclude (stack : OutputStack) (bb : BBox)
    (bw bh : Option ℤ) (fr : Frame) (weighted : Bool)
    (he : hitsBorder
      (bbExtents bb (resolvedW bb bw) (resolvedH bb bh) weighted)
      (stack.width : ℤ) (stack.height : ℤ)) :
    insert_bb stack bb bw bh fr weighted false =
      (stack,
       [mkDiag false (bbExtents bb (resolvedW bb bw) (resolvedH bb bh) weighted)
         (frameSelOf fr) (resolvedW bb bw) (resolvedH bb bh)]) := by
  simp only [insert_bb]
  rw [if_pos he]
  simp

theorem insert_bb_of_include (stack : OutputStack) (bb : BBox)
    (bw bh : Option ℤ) (fr : Frame) (weighted : Bool)
    (he : hitsBorder
      (bbExtents bb (resolvedW bb bw) (resolvedH bb bh) weighted)
      (stack.width : ℤ) (stack.height : ℤ)) :
    insert_bb stack bb bw bh fr weighted true =
      ({ stack with data := (writeRect stack.data (frameSelOf fr)
            (clampExt (bbExtents bb (resolvedW bb bw) (resolvedH bb bh) weighted)
              (stack.width : ℤ) (stack.height : ℤ)) 2) },
       [mkDiag true (bbExtents bb (resolvedW bb bw) (resolvedH bb bh) weighted)
         (frameSelOf fr) (resolvedW bb bw) (resolvedH bb bh)]) := by
  simp only [insert_bb]
  rw [if_pos he]
  simp

/-- The computed extents always satisfy `x2 = x1 + bb_width`,
`y2 = y1 + bb_height`. -/
theorem bbExtents_span (bb : BBox) (w h : ℤ) (weighted : Bool) :
    (bbExtents bb w h weighted).x2 = (bbExtents bb w h weighted).x1 + w ∧
    (bbExtents bb w h weighted).y2 = (bbExtents bb w h weighted).y1 + h := by
  unfold bbExtents
  split <;> exact ⟨rfl, rfl⟩

/-- C4: an `insert_bb` call whose computed extents fall outside the image
bounds, run with `ignore_borders=false`, leaves the stack entirely
unchanged (nothing is drawn) and emits exactly one diagnostic tagged
"EXCLUDE", naming the computed extents, the affected frame and the
requested dimensions. -/
theorem insert_bb_exclude_spec (stack : OutputStack) (bb : BBox)
    (bw bh : Option ℤ) (fr : Frame) (weighted : Bool)
    (hob : hitsBorder
      (bbExtents bb (resolvedW bb bw) (resolvedH bb bh) weighted)
      (stack.width : ℤ) (stack.height : ℤ)) :
    (insert_bb stack bb bw bh fr weighted false).1 = stack ∧
    (insert_bb stack bb bw bh fr weighted false).2 =
      [{ tag := "EXCLUDE",
         x1 := (bbExtents bb (resolvedW bb bw) (resolvedH bb bh) weighted).x1,
         x2 := (bbExtents bb (resolvedW bb bw) (resolvedH bb bh) weighted).x2,
         y1 := (bbExtents bb (resolvedW bb bw) (resolvedH bb bh) weighted).y1,
         y2 := (bbExtents bb (resolvedW bb bw) (resolvedH bb bh) weighted).y2,
         frame_name := (frameSelOf fr).map (fun n => n + 1),
         w := resolvedW bb bw, h := resolvedH bb bh }] := by
  rw [insert_bb_of_exclude stack bb bw bh fr weighted hob]
  exact ⟨rfl, by simp [mkDiag]⟩

theorem insert_bb_exclude_spec_witness :
    hitsBorder
      (bbExtents bbTen (resolvedW bbTen Option.none)
        (resolvedH bbTen Option.none) false)
      (stack55.width : ℤ) (stack55.height : ℤ) ∧
    ((insert_bb stack55 bbTen Option.none Option.none (Frame.fidx 0) false
        false).1 = stack55 ∧
     (insert_bb stack55 bbTen Option.none Option.none (Frame.fidx 0) false
        false).2 =
      [{ tag := "EXCLUDE",
         x1 := (bbExtents bbTen (resolvedW bbTen Option.none)
           (resolvedH bbTen Option.none) false).x1,
         x2 := (bbExtents bbTen (resolvedW bbTen Option.none)
           (resolvedH bbTen Option.none) false).x2,
         y1 := (bbExtents bbTen (resolvedW bbTen Option.none)
           (resolvedH bbTen Option.none) false).y1,
         y2 := (bbExtents bbTen (resolvedW bbTen Option.none)
           (resolvedH bbTen Option.none) false).y2,
         frame_name := (frameSelOf (Frame.fidx 0)).map (fun n => n + 1),
         w := resolvedW bbTen Option.none,
         h := resolvedH bbTen Option.none }]) :=
  ⟨by decide,
   insert_bb_exclude_spec stack55 bbTen Option.none Option.none
     (Frame.fidx 0) false (by decide)⟩

/-- C5: an `insert_bb` call whose computed extents fall outside the image
bounds, run with `ignore_borders=true`, writes the value 2 exactly in the
region clamped to the image bounds (no write lands outside
`[0,width) × [0,height)`) and emits exactly one diagnostic tagged
"INCLUDE". -/
theorem insert_bb_include_spec (stack : OutputStack) (bb : BBox)
    (bw bh : Option ℤ) (fr : Frame) (weighted : Bool) (f y x : ℤ)
    (hob : hitsBorder
      (bbExtents bb (resolvedW bb bw) (resolvedH bb bh) weighted)
      (stack.width : ℤ) (stack.height : ℤ)) :
    (frameMatch (frameSelOf fr) f ∧
        inExt (clampExt
          (bbExtents bb (resolvedW bb bw) (resolvedH bb bh) weighted)
          (stack.width : ℤ) (stack.height : ℤ)) y x →
      (insert_bb stack bb bw bh fr weighted true).1.data f y x = 2) ∧
    (¬ (frameMatch (frameSelOf fr) f ∧
        inExt (clampExt
          (bbExtents bb (resolvedW bb bw) (resolvedH bb bh) weighted)
          (stack.width : ℤ) (stack.height : ℤ)) y x) →
      (insert_bb stack bb bw bh fr weighted true).1.data f y x =
        stack.data f y x) ∧
    ((x < 0 ∨ (stack.width : ℤ) ≤ x ∨ y < 0 ∨ (stack.height : ℤ) ≤ y) →
      (insert_bb stack bb bw bh fr weighted true).1.data f y x =
        stack.data f y x) ∧
    (insert_bb stack bb bw bh fr weighted true).2 =
      [{ tag := "INCLUDE",
         x1 := (bbExtents bb (resolvedW bb bw) (resolvedH bb bh) weighted).x1,
         x2 := (bbExtents bb (resolvedW bb bw) (resolvedH bb bh) weighted).x2,
         y1 := (bbExtents bb (resolvedW bb bw) (resolvedH bb bh) weighted).y1,
         y2 := (bbExtents bb (resolvedW bb bw) (resolvedH bb bh) weighted).y2,
         frame_name := (frameSelOf fr).map (fun n => n + 1),
         w := resolvedW bb bw, h := resolvedH bb bh }] := by
  rw [insert_bb_of_include stack bb bw bh fr weighted hob]
  refine ⟨?_, ?_, ?_, by simp [mkDiag]⟩
  · intro hc
    simp only [writeRect]
    rw [if_pos hc]
  · intro hc
    simp only [writeRect]
    rw [if_neg hc]
  · intro hxy
    simp only [writeRect]
    rw [if_neg]
    intro hc
    obtain ⟨-, hy1, hy2, hx1, hx2⟩ := hc
    revert hy1 hy2 hx1 hx2
    simp only [clampExt]
    split_ifs <;> omega

theorem insert_bb_include_spec_witness :
    hitsBorder
      (bbExtents bbTen (resolvedW bbTen Option.none)
        (resolvedH bbTen Option.none) false)
      (stack55.width : ℤ) (stack55.height : ℤ) ∧
    frameMatch (frameSelOf (Frame.fidx 0)) 0 ∧
    inExt (clampExt
      (bbExtents bbTen (resolvedW bbTen Option.none)
        (resolvedH bbTen Option.none) false)
      (stack55.width : ℤ) (stack55.height : ℤ)) 2 2 ∧
    (insert_bb stack55 bbTen Option.none Option.none (Frame.fidx 0) false
      true).1.data 0 2 2 = 2 ∧
    (insert_bb stack55 bbTen Option.none Option.none (Frame.fidx 0) false
      true).2 =
      [{ tag := "INCLUDE",
         x1 := (bbExtents bbTen (resolvedW bbTen Option.none)
           (resolvedH bbTen Option.none) false).x1,
         x2 := (bbExtents bbTen (resolvedW bbTen Option.none)
           (resolvedH bbTen Option.none) false).x2,
         y1 := (bbExtents bbTen (resolvedW bbTen Option.none)
           (resolvedH bbTen Option.none) false).y1,
         y2 := (bbExtents bbTen (resolvedW bbTen Option.none)
           (resolvedH bbTen Option.none) false).y2,
         frame_name := (frameSelOf (Frame.fidx 0)).map (fun n => n + 1),
         w := resolvedW bbTen Option.none,
         h := resolvedH bbTen Option.none }] := by
  have h := insert_bb_include_spec stack55 bbTen Option.none Option.none
    (Frame.fidx 0) false 0 2 2 (by decide)
  exact ⟨by decide, by decide, by decide, h.1 (by decide), h.2.2.2⟩

/-- C6: an `insert_bb` call whose computed extents lie entirely within the
image bounds writes the value 1 at every pixel of the computed footprint of
the selected frame(s) and emits no border diagnostic; and the out-of-bounds
outcome occurs if and only if some computed extent falls outside
`[0, width] × [0, height]` (given nonnegative requested dimensions). -/
theorem insert_bb_fit_spec (stack : OutputStack) (bb : BBox)
    (bw bh : Option ℤ) (fr : Frame) (weighted ib : Bool) (f y x : ℤ)
    (hw : 0 ≤ resolvedW bb bw) (hh : 0 ≤ resolvedH bb bh) :
    (¬ hitsBorder
        (bbExtents bb (resolvedW bb bw) (resolvedH bb bh) weighted)
        (stack.width : ℤ) (stack.height : ℤ) →
      (frameMatch (frameSelOf fr) f ∧
          inExt (bbExtents bb (resolvedW bb bw) (resolvedH bb bh) weighted)
            y x →
        (insert_bb stack bb bw bh fr weighted ib).1.data f y x = 1) ∧
      (insert_bb stack bb bw bh fr weighted ib).2 = []) ∧
    (hitsBorder
        (bbExtents bb (resolvedW bb bw) (resolvedH bb bh) weighted)
        (stack.width : ℤ) (stack.height : ℤ) ↔
      ((bbExtents bb (resolvedW bb bw) (resolvedH bb bh) weighted).x1 < 0 ∨
       (stack.width : ℤ) <
         (bbExtents bb (resolvedW bb bw) (resolvedH bb bh) weighted).x1 ∨
       (bbExtents bb (resolvedW bb bw) (resolvedH bb bh) weighted).x2 < 0 ∨
       (stack.width : ℤ) <
         (bbExtents bb (resolvedW bb bw) (resolvedH bb bh) weighted).x2 ∨
       (bbExtents bb (resolvedW bb bw) (resolvedH bb bh) weighted).y1 < 0 ∨
       (stack.height : ℤ) <
         (bbExtents bb (resolvedW bb bw) (resolvedH bb bh) weighted).y1 ∨
       (bbExtents bb (resolvedW bb bw) (resolvedH bb bh) weighted).y2 < 0 ∨
       (stack.height : ℤ) <
         (bbExtents bb (resolvedW bb bw) (resolvedH bb bh) weighted).y2)) := by
  constructor
  · intro hfit
    rw [insert_bb_of_fits stack bb bw bh fr weighted ib hfit]
    refine ⟨?_, rfl⟩
    intro hc
    simp only [writeRect]
    rw [if_pos hc]
  · obtain ⟨hx, hy⟩ :=
      bbExtents_span bb (resolvedW bb bw) (resolvedH bb bh) weighted
    unfold hitsBorder
    omega

theorem insert_bb_fit_spec_witness :
    0 ≤ resolvedW bbSmall Option.none ∧ 0 ≤ resolvedH bbSmall Option.none ∧
    ¬ hitsBorder
      (bbExtents bbSmall (resolvedW bbSmall Option.none)
        (resolvedH bbSmall Option.none) false)
      (stack55.width : ℤ) (stack55.height : ℤ) ∧
    frameMatch (frameSelOf (Frame.fidx 0)) 0 ∧
    inExt (bbExtents bbSmall (resolvedW bbSmall Option.none)
      (resolvedH bbSmall Option.none) false) 1 1 ∧
    (insert_bb stack55 bbSmall Option.none Option.none (Frame.fidx 0) false
      false).1.data 0 1 1 = 1 ∧
    (insert_bb stack55 bbSmall Option.none Option.none (Frame.fidx 0) false
      false).2 = [] := by
  have h := insert_bb_fit_spec stack55 bbSmall Option.none Option.none
    (Frame.fidx 0) false false 0 1 1 (by decide) (by decide)
  have h2 := h.1 (by decide)
  exact ⟨by decide, by decide, by decide, by decide, by decide,
    h2.1 (by decide), h2.2⟩

/-- C7: for a BoundingBox with `x_max - x_min = w - 1` and
`y_max - y_min = h - 1`, placing a square of target size `(w, h)` in
bounds-centered (non-weighted) mode computes the extents
`(x_min, x_max + 1, y_min, y_max + 1)` (half-open on the upper side), whose
pixel footprint is exactly the original box. -/
theorem place_square_identity (bb : BBox) (w h : ℤ)
    (hw : bb.x_max - bb.x_min = w - 1) (hh : bb.y_max - bb.y_min = h - 1) :
    bbExtents bb w h false =
      { x1 := bb.x_min, x2 := bb.x_max + 1,
        y1 := bb.y_min, y2 := bb.y_max + 1 } ∧
    (∀ px py : ℤ, inExt (bbExtents bb w h false) py px ↔
      (bb.x_min ≤ px ∧ px ≤ bb.x_max ∧ bb.y_min ≤ py ∧ py ≤ bb.y_max)) := by
  have he : bbExtents bb w h false =
      { x1 := bb.x_min, x2 := bb.x_max + 1,
        y1 := bb.y_min, y2 := bb.y_max + 1 } := by
    simp only [bbExtents, Bool.false_eq_true, if_false, Ext.mk.injEq]
    refine ⟨?_, ?_, ?_, ?_⟩ <;> omega
  refine ⟨he, ?_⟩
  intro px py
  rw [he]
  unfold inExt
  simp only
  omega

theorem place_square_identity_witness :
    bbSmall.x_max - bbSmall.x_min = 2 - 1 ∧
    bbSmall.y_max - bbSmall.y_min = 2 - 1 ∧
    bbExtents bbSmall 2 2 false =
      { x1 := bbSmall.x_min, x2 := bbSmall.x_max + 1,
        y1 := bbSmall.y_min, y2 := bbSmall.y_max + 1 } ∧
    (inExt (bbExtents bbSmall 2 2 false) 1 2 ↔
      (bbSmall.x_min ≤ 2 ∧ 2 ≤ bbSmall.x_max ∧ bbSmall.y_min ≤ 1 ∧
       1 ≤ bbSmall.y_max)) := by
  have h := place_square_identity bbSmall 2 2 (by decide) (by decide)
  exact ⟨by decide, by decide, h.1, h.2 2 1⟩

/-- C10: a drawing `insert_bb` call (the box fits, or `ignore_borders=true`)
modifies only the entries inside the possibly-clamped target rectangle of
the selected frame — of every frame when the frame argument is the
all-frames sentinel; every other entry keeps its previous value. -/
theorem insert_bb_frame_effect (stack : OutputStack) (bb : BBox)
    (bw bh : Option ℤ) (fr : Frame) (weighted ib : Bool) (f y x : ℤ)
    (hdraw : ¬ hitsBorder
        (bbExtents bb (resolvedW bb bw) (resolvedH bb bh) weighted)
        (stack.width : ℤ) (stack.height : ℤ) ∨ ib = true)
    (hout : ¬ (frameMatch (frameSelOf fr) f ∧
      inExt (targetExt stack bb bw bh weighted ib) y x)) :
    (insert_bb stack bb bw bh fr weighted ib).1.data f y x =
      stack.data f y x := by
  by_cases hb : hitsBorder
      (bbExtents bb (resolvedW bb bw) (resolvedH bb bh) weighted)
      (stack.width : ℤ) (stack.height : ℤ)
  · have hib : ib = true := by tauto
    subst hib
    rw [insert_bb_of_include stack bb bw bh fr weighted hb]
    have ht : targetExt stack bb bw bh weighted true =
        clampExt (bbExtents bb (resolvedW bb bw) (resolvedH bb bh) weighted)
          (stack.width : ℤ) (stack.height : ℤ) := by
      unfold targetExt
      rw [if_pos ⟨hb, rfl⟩]
    rw [ht] at hout
    simp only [writeRect]
    rw [if_neg hout]
  · rw [insert_bb_of_fits stack bb bw bh fr weighted ib hb]
    have ht : targetExt stack bb bw bh weighted ib =
        bbExtents bb (resolvedW bb bw) (resolvedH bb bh) weighted := by
      unfold targetExt
      rw [if_neg (by tauto)]
    rw [ht] at hout
    simp only [writeRect]
    rw [if_neg hout]

theorem insert_bb_frame_effect_witness :
    (¬ hitsBorder
        (bbExtents bbSmall (resolvedW bbSmall Option.none)
          (resolvedH bbSmall Option.none) false)
        (stack55.width : ℤ) (stack55.height : ℤ) ∨ false = true) ∧
    ¬ (frameMatch (frameSelOf (Frame.fidx 0)) 0 ∧
      inExt (targetExt stack55 bbSmall Option.none Option.none false false)
        4 4) ∧
    (insert_bb stack55 bbSmall Option.none Option.none (Frame.fidx 0) false
      false).1.data 0 4 4 = stack55.data 0 4 4 :=
  ⟨Or.inl (by decide), by decide,
   insert_bb_frame_effect stack55 bbSmall Option.none Option.none
     (Frame.fidx 0) false false 0 4 4 (Or.inl (by decide)) (by decide)⟩

/-- C3 counterexample: the StackMeta is read from the first supplied
collection only (`bboxes[0][None]`); here the StackMeta record is present,
but in the second collection, and the call fails instead of allocating the
output stacks. -/
theorem meta_in_second_coll_fails :
    varying_margins_centered 400 [some noMetaColl, some metaOnly30] [0] false
      = Option.none := rfl

/-- C3 amended: `varying_margins_centered` obtains the StackMeta from the
first supplied collection's reserved key only, and succeeds in allocating
the output stacks iff the first supplied collection exists, is not Python
`None`, and contains the StackMeta record. -/
theorem build_stacks_meta_from_first_coll (area : ℝ)
    (colls : List (Option TrackColl)) (margins : List ℝ) (ib : Bool) :
    (varying_margins_centered area colls margins ib).isSome = true ↔
      (∃ c rest, colls = some c :: rest ∧ c.meta.isSome = true) := by
  rcases colls with _ | ⟨c0, rest⟩
  · simp [varying_margins_centered]
  · rcases c0 with _ | c
    · simp [varying_margins_centered]
    · rcases hm : c.meta with _ | m
      · constructor
        · intro h
          simp [varying_margins_centered, hm] at h
        · rintro ⟨c', rest', heq, hsome⟩
          injection heq with h1 h2
          injection h1 with h1
          subst h1
          rw [hm] at hsome
          simp at hsome
      · simp only [varying_margins_centered, hm, Option.isSome_some,
          true_iff]
        exact ⟨c, rest, rfl, by rw [hm]; rfl⟩

/-- C2 (code bug): processing of input files is not independent when
empty-site coordinates are supplied: `main` rebinds the variable `empty` to
the synthesized dict inside the per-file loop, so the second file's
`make_empty_bboxes(empty, area)` call iterates the dict's integer keys and
crashes with a TypeError (modelled `Option.none`), while the identical
single-file run succeeds. -/
theorem main_not_independent_with_empty :
    main [metaOnly30, metaOnly30] 400 [0] false
      (EmptyArg.coords [(10, 10)]) = Option.none ∧
    (main [metaOnly30] 400 [0] false
      (EmptyArg.coords [(10, 10)])).isSome = true := by
  constructor <;> rfl

/-- Evaluation of the synthesizer at area 400:
`w = rint (sqrt 400) = 20` and `h = rint (400 / 20) = 20`. -/
theorem make_empty_bboxes_400 (coords : List (ℤ × ℤ)) :
    make_empty_bboxes coords 400 =
      { meta := Option.none,
        tracks := coords.enum.map
          (fun ic => ((ic.1 : ℤ), [(Frame.fnone, emptyBox ic.2 20 20)])) } := by
  unfold make_empty_bboxes
  simp only [sqrt_400, rint_twenty]
  rw [show ((20 : ℤ) : ℝ) = (20 : ℝ) by norm_num,
    show (400 : ℝ) / 20 = 20 by norm_num, rint_twenty]

/-- The weighted extents of a synthesized even-sided box are centered
exactly on the coordinate. -/
theorem bbExtents_emptyBox_400 (c : ℤ × ℤ) :
    bbExtents (emptyBox c 20 20) 20 20 true =
      { x1 := c.1 - 10, x2 := c.1 + 10, y1 := c.2 - 10, y2 := c.2 + 10 } := by
  have h102 : (20 : ℤ) / 2 = 10 := by decide
  have hx : rint (emptyBox c 20 20).x_mean = c.1 := by
    have hm : (emptyBox c 20 20).x_mean = ((c.1 : ℤ) : ℝ) := by
      unfold emptyBox
      simp only [h102]
      push_cast
      ring
    rw [hm, rint_intCast]
  have hy : rint (emptyBox c 20 20).y_mean = c.2 := by
    have hm : (emptyBox c 20 20).y_mean = ((c.2 : ℤ) : ℝ) := by
      unfold emptyBox
      simp only [h102]
      push_cast
      ring
    rw [hm, rint_intCast]
  unfold bbExtents
  simp only [if_true, hx, hy, h102, Ext.mk.injEq]
  refine ⟨by ring_nf, by ring_nf, by ring_nf, by ring_nf⟩

/-- Compositing a single synthesized empty site (area 400) over a meta-only
collection reduces to one `insert_bb` call with side 20 and the `None`
frame key: the synthetic track is NOT skipped (the skip rule tests only the
`...` sentinel). -/
theorem synth_single_insert (cx cy : ℤ) (n H W : ℕ) :
    varying_margins_centered 400
      [some { meta := some { n_frames := n, width := W, height := H },
              tracks := [] },
       some (make_empty_bboxes [(cx, cy)] 400)] [0] false =
      some [((0 : ℝ),
        (insert_bb (zerosStack { n_frames := n, width := W, height := H })
          (emptyBox (cx, cy) 20 20) (some 20) (some 20) Frame.fnone true
          false).1)] := by
  have hs : sideLength 400 0 = 20 := sideLength_400_0
  rw [make_empty_bboxes_400]
  simp [varying_margins_centered, processTrack, insertTrackFrames, hs,
    List.enum, List.enumFrom]

/-- C1 (amended; the original claim is false on the code): synthetic
empty-site tracks carry the placeholder frame key `None`, which the
Compositor does not skip (its skip rule tests only the `...` sentinel) and
which `insert_bb` interprets as the all-frames selector; a synthetic box
that fits the image IS drawn (value 1) into every frame of every output
stack, over its whole footprint. -/
theorem synthetic_tracks_drawn_all_frames (cx cy f y x : ℤ) (n H W : ℕ)
    (hx1 : 0 ≤ cx - 10) (hx2 : cx + 10 ≤ (W : ℤ))
    (hy1 : 0 ≤ cy - 10) (hy2 : cy + 10 ≤ (H : ℤ))
    (hfx : cx - 10 ≤ x) (hfx2 : x < cx + 10)
    (hfy : cy - 10 ≤ y) (hfy2 : y < cy + 10) :
    pixelAt (varying_margins_centered 400
      [some { meta := some { n_frames := n, width := W, height := H },
              tracks := [] },
       some (make_empty_bboxes [(cx, cy)] 400)] [0] false) 0 f y x =
      some 1 := by
  rw [synth_single_insert]
  have hrw : resolvedW (emptyBox (cx, cy) 20 20) (some 20) = 20 := rfl
  have hrh : resolvedH (emptyBox (cx, cy) 20 20) (some 20) = 20 := rfl
  have he : ¬ hitsBorder
      (bbExtents (emptyBox (cx, cy) 20 20)
        (resolvedW (emptyBox (cx, cy) 20 20) (some 20))
        (resolvedH (emptyBox (cx, cy) 20 20) (some 20)) true)
      ((zerosStack { n_frames := n, width := W, height := H }).width : ℤ)
      ((zerosStack { n_frames := n, width := W, height := H }).height : ℤ) := by
    rw [hrw, hrh, bbExtents_emptyBox_400]
    dsimp only [hitsBorder, zerosStack]
    omega
  rw [insert_bb_of_fits _ _ _ _ _ _ _ he]
  rw [hrw, hrh, bbExtents_emptyBox_400]
  have hcond : frameMatch Option.none f ∧
      inExt { x1 := cx - 10, x2 := cx + 10, y1 := cy - 10, y2 := cy + 10 }
        y x :=
    ⟨Or.inl rfl, hfy, hfy2, hfx, hfx2⟩
  simp [pixelAt, writeRect, frameSelOf, hcond]

theorem synthetic_tracks_drawn_all_frames_witness :
    0 ≤ (10 : ℤ) - 10 ∧ (10 : ℤ) + 10 ≤ ((30 : ℕ) : ℤ) ∧
    (10 : ℤ) - 10 ≤ 5 ∧ (5 : ℤ) < 10 + 10 ∧
    pixelAt (varying_margins_centered 400
      [some { meta := some { n_frames := 2, width := 30, height := 30 },
              tracks := [] },
       some (make_empty_bboxes [(10, 10)] 400)] [0] false) 0 1 5 5 =
      some 1 :=
  ⟨by norm_num, by norm_num, by norm_num, by norm_num,
   synthetic_tracks_drawn_all_frames 10 10 1 5 5 2 30 30
     (by norm_num) (by norm_num) (by norm_num) (by norm_num)
     (by norm_num) (by norm_num) (by norm_num) (by norm_num)⟩

/-- C1 counterexample to the claim as stated: with a synthetic empty site
at (10,10), area 400 and margin 0, pixel (frame 0, y=5, x=5) of the output
stack IS written (value 1), whereas without the synthetic collection it
stays 0 — synthetic boxes ARE drawn into the per-frame stacks. -/
theorem synthetic_track_drawn_counterexample :
    pixelAt (varying_margins_centered 400
      [some metaOnly30, some (make_empty_bboxes [(10, 10)] 400)]
      [0] false) 0 0 5 5 = some 1 ∧
    pixelAt (varying_margins_centered 400 [some metaOnly30, Option.none]
      [0] false) 0 0 5 5 = some 0 := by
  constructor
  · show pixelAt (varying_margins_centered 400
      [some { meta := some { n_frames := 2, width := 30, height := 30 },
              tracks := [] },
       some (make_empty_bboxes [(10, 10)] 400)] [0] false) 0 0 5 5 = some 1
    rw [synth_single_insert]
    have hrw : resolvedW (emptyBox (10, 10) 20 20) (some 20) = 20 := rfl
    have hrh : resolvedH (emptyBox (10, 10) 20 20) (some 20) = 20 := rfl
    have he : ¬ hitsBorder
        (bbExtents (emptyBox (10, 10) 20 20)
          (resolvedW (emptyBox (10, 10) 20 20) (some 20))
          (resolvedH (emptyBox (10, 10) 20 20) (some 20)) true)
        ((zerosStack { n_frames := 2, width := 30, height := 30 }).width : ℤ)
        ((zerosStack { n_frames := 2, width := 30, height := 30 }).height : ℤ) := by
      rw [hrw, hrh, bbExtents_emptyBox_400]
      dsimp only [hitsBorder, zerosStack]
      omega
    rw [insert_bb_of_fits _ _ _ _ _ _ _ he]
    rw [hrw, hrh, bbExtents_emptyBox_400]
    simp [pixelAt, writeRect, frameSelOf, frameMatch, inExt, zerosStack]
  · rfl

/-- `insert_bb` never changes the stack shape. -/
theorem insert_bb_shape (stack : OutputStack) (bb : BBox) (bw bh : Option ℤ)
    (fr : Frame) (weighted ib : Bool) :
    (insert_bb stack bb bw bh fr weighted ib).1.n_frames = stack.n_frames ∧
    (insert_bb stack bb bw bh fr weighted ib).1.height = stack.height ∧
    (insert_bb stack bb bw bh fr weighted ib).1.width = stack.width := by
  simp only [insert_bb]
  split_ifs <;> exact ⟨rfl, rfl, rfl⟩

/-- The per-track frame loop never changes the stack shape. -/
theorem insertTrackFrames_shape (area mg : ℝ) (ib : Bool) (tr : Track)
    (st : OutputStack) :
    (insertTrackFrames area mg ib tr st).n_frames = st.n_frames ∧
    (insertTrackFrames area mg ib tr st).height = st.height ∧
    (insertTrackFrames area mg ib tr st).width = st.width := by
  induction tr generalizing st with
  | nil => exact ⟨rfl, rfl, rfl⟩
  | cons fb rest ih =>
    obtain ⟨frk, bb⟩ := fb
    cases frk with
    | fell =>
      simp only [insertTrackFrames, List.foldl_cons]
      exact ih st
    | fnone =>
      simp only [insertTrackFrames, List.foldl_cons]
      have h1 := insert_bb_shape st bb (some (sideLength area mg))
        (some (sideLength area mg)) Frame.fnone true ib
      have h2 := ih ((insert_bb st bb (some (sideLength area mg))
        (some (sideLength area mg)) Frame.fnone true ib).1)
      exact ⟨h2.1.trans h1.1, h2.2.1.trans h1.2.1, h2.2.2.trans h1.2.2⟩
    | fidx k =>
      simp only [insertTrackFrames, List.foldl_cons]
      have h1 := insert_bb_shape st bb (some (sideLength area mg))
        (some (sideLength area mg)) (Frame.fidx k) true ib
      have h2 := ih ((insert_bb st bb (some (sideLength area mg))
        (some (sideLength area mg)) (Frame.fidx k) true ib).1)
      exact ⟨h2.1.trans h1.1, h2.2.1.trans h1.2.1, h2.2.2.trans h1.2.2⟩

/-- C8: for margins `[0, 0.25]` and a single tracked cell,
`varying_margins_centered` returns exactly two OutputStacks, keyed 0 and
0.25, each shaped `(3, height, width)` for a 3-frame StackMeta; and the
drawn square side `sideLength area margin = rint (sqrt ((1+margin)*area))`
is monotone in the margin, so the 0.25-margin side is `≥` the 0-margin side
in every frame. -/
theorem build_stacks_two_margins_mono (tr : Track) (H W : ℕ)
    (area m1 m2 : ℝ) (ib : Bool) (hA : 0 ≤ area) (hm : m1 ≤ m2) :
    (∃ s0 s1 : OutputStack,
      varying_margins_centered area
        [some { meta := some { n_frames := 3, width := W, height := H },
                tracks := [(0, tr)] }] [0, 0.25] ib =
        some [((0 : ℝ), s0), ((0.25 : ℝ), s1)] ∧
      s0.n_frames = 3 ∧ s0.height = H ∧ s0.width = W ∧
      s1.n_frames = 3 ∧ s1.height = H ∧ s1.width = W) ∧
    sideLength area m1 ≤ sideLength area m2 := by
  constructor
  · refine ⟨insertTrackFrames area 0 ib tr
        (zerosStack { n_frames := 3, width := W, height := H }),
      insertTrackFrames area 0.25 ib tr
        (zerosStack { n_frames := 3, width := W, height := H }), ?_, ?_⟩
    · simp [varying_margins_centered, processTrack]
    · have h0 := insertTrackFrames_shape area 0 ib tr
        (zerosStack { n_frames := 3, width := W, height := H })
      have h1 := insertTrackFrames_shape area 0.25 ib tr
        (zerosStack { n_frames := 3, width := W, height := H })
      exact ⟨h0.1, h0.2.1, h0.2.2, h1.1, h1.2.1, h1.2.2⟩
  · unfold sideLength
    apply rint_mono
    apply Real.sqrt_le_sqrt
    have := mul_le_mul_of_nonneg_right
      (by linarith : (1 : ℝ) + m1 ≤ 1 + m2) hA
    linarith

theorem build_stacks_two_margins_mono_witness :
    (0 : ℝ) ≤ 400 ∧ (0 : ℝ) ≤ 0.25 ∧
    (∃ s0 s1 : OutputStack,
      varying_margins_centered 400
        [some { meta := some { n_frames := 3, width := 30, height := 30 },
                tracks := [(0, tr3)] }] [0, 0.25] false =
        some [((0 : ℝ), s0), ((0.25 : ℝ), s1)] ∧
      s0.n_frames = 3 ∧ s0.height = 30 ∧ s0.width = 30 ∧
      s1.n_frames = 3 ∧ s1.height = 30 ∧ s1.width = 30) ∧
    sideLength 400 0 ≤ sideLength 400 0.25 := by
  have h := build_stacks_two_margins_mono tr3 30 30 400 0 0.25 false
    (by norm_num) (by norm_num)
  exact ⟨by norm_num, by norm_num, h.1, h.2⟩

/-- C9: `make_empty_bboxes` returns a collection with exactly one track per
coordinate, keyed by the coordinate's position in the input sequence; each
track is a single entry under the placeholder frame key whose box has
x-extent `w = rint (sqrt area)`, y-extent `h = rint (area / w)`, lower
corner `(cx - w / 2, cy - h / 2)` (remainder split toward the lower edge)
and is centered on the given coordinate within 1 px. -/
theorem make_empty_bboxes_spec (coords : List (ℤ × ℤ)) (area : ℝ)
    (_hA : (1 : ℝ) ≤ area) :
    (make_empty_bboxes coords area).meta = Option.none ∧
    (make_empty_bboxes coords area).tracks.length = coords.length ∧
    (∀ i : ℕ, ∀ c : ℤ × ℤ, coords[i]? = some c →
      (make_empty_bboxes coords area).tracks[i]? =
        some ((i : ℤ),
          [(Frame.fnone,
            emptyBox c (rint (Real.sqrt area))
              (rint (area / ((rint (Real.sqrt area) : ℤ) : ℝ))))])) ∧
    (∀ (c : ℤ × ℤ) (w h : ℤ),
      (emptyBox c w h).x_max - (emptyBox c w h).x_min = w ∧
      (emptyBox c w h).y_max - (emptyBox c w h).y_min = h ∧
      (emptyBox c w h).x_min = c.1 - w / 2 ∧
      (emptyBox c w h).y_min = c.2 - h / 2 ∧
      |2 * c.1 - ((emptyBox c w h).x_min + (emptyBox c w h).x_max)| ≤ 1 ∧
      |2 * c.2 - ((emptyBox c w h).y_min + (emptyBox c w h).y_max)| ≤ 1) := by
  refine ⟨rfl, ?_, ?_, ?_⟩
  · simp [make_empty_bboxes]
  · intro i c hic
    simp [make_empty_bboxes, List.getElem?_map, List.getElem?_enum, hic]
  · intro c w h
    refine ⟨?_, ?_, ?_, ?_, ?_, ?_⟩ <;>
      simp only [emptyBox, abs_le] <;> omega

theorem make_empty_bboxes_spec_witness :
    (1 : ℝ) ≤ 400 ∧
    rint (Real.sqrt 400) = 20 ∧
    (make_empty_bboxes [(100, 200), (300, 400)] 400).tracks.length = 2 ∧
    (make_empty_bboxes [(100, 200), (300, 400)] 400).tracks[0]? =
      some (0,
        [(Frame.fnone,
          emptyBox (100, 200) (rint (Real.sqrt 400))
            (rint (400 / ((rint (Real.sqrt 400) : ℤ) : ℝ))))]) := by
  have h := make_empty_bboxes_spec [(100, 200), (300, 400)] 400
    (by norm_num)
  refine ⟨by norm_num, ?_, h.2.1, h.2.2.1 0 (100, 200) rfl⟩
  rw [sqrt_400]
  exact rint_twenty

end PyamaSquares
